import Mathlib

/-!
Verification development for the AttendanceApp ai-service core.

Shallow embedding of:
* the capture-pairing token store (`src/ai-service/app/capture.py`),
* the websocket connection registry (`src/ai-service/app/ws_manager.py`),
* the face-recognition engine (`src/ai-service/app/face_recognition.py`).

Modelling conventions:
* Python dicts are modelled as association lists with dict-assignment
  semantics (`alookup` / `ainsert` / `aremove`); states reachable from dict
  operations have pairwise distinct keys, which theorems assume as a
  `Nodup` hypothesis where it matters.
* Timestamps and all numeric values computed by the external numerics
  library are modelled as rationals; each call of the clock
  (`datetime.utcnow()`) is a separate explicit argument.
* The external feature-extraction pipeline (base64 decode + the DeepFace
  multi-strategy extractor, `_base64_to_image` / `extract_embedding`) is an
  oracle parameter of type `String → Except Unit (Option Emb)`:
  `.error ()` models an exception raised while decoding/processing the
  image, `.ok none` models the structured "no face detected with any
  strategy" outcome, `.ok (some e)` a successfully extracted embedding.
  The cosine-distance computation (numpy on floats) is likewise a
  parameter `dist : Emb → Emb → ℚ`.
* Websocket handles are identified by numerals; `closed` records the
  handles on which the manager has called close (the source manager never
  closes a handle, which the model makes visible).
-/

namespace AttendanceApp

/-- Embeddings are Python lists of floats; modelled as lists of rationals. -/
abbrev Emb := List ℚ

/-! ## Association lists with Python-dict semantics -/

/-- Dict lookup: value of the first entry with the given key. -/
def alookup {α β : Type} [DecidableEq α] : List (α × β) → α → Option β
  | [], _ => none
  | (k', v') :: rest, k => if k' = k then some v' else alookup rest k

/-- Dict assignment `d[k] = v`: replaces the value of an existing key in
place, otherwise appends the new entry (Python insertion order). -/
def ainsert {α β : Type} [DecidableEq α] : List (α × β) → α → β → List (α × β)
  | [], k, v => [(k, v)]
  | (k', v') :: rest, k, v =>
      if k' = k then (k, v) :: rest else (k', v') :: ainsert rest k v

/-- Dict removal `d.pop(k, None)` / `del d[k]`: drops the entry with the
given key, if present. -/
def aremove {α β : Type} [DecidableEq α] : List (α × β) → α → List (α × β)
  | [], _ => []
  | (k', v') :: rest, k => if k' = k then rest else (k', v') :: aremove rest k

@[simp] theorem alookup_nil {α β : Type} [DecidableEq α] (k : α) :
    alookup ([] : List (α × β)) k = none := rfl

@[simp] theorem alookup_cons {α β : Type} [DecidableEq α] (k' : α) (v' : β)
    (rest : List (α × β)) (k : α) :
    alookup ((k', v') :: rest) k = if k' = k then some v' else alookup rest k := rfl

@[simp] theorem ainsert_nil {α β : Type} [DecidableEq α] (k : α) (v : β) :
    ainsert ([] : List (α × β)) k v = [(k, v)] := rfl

@[simp] theorem ainsert_cons {α β : Type} [DecidableEq α] (k' : α) (v' : β)
    (rest : List (α × β)) (k : α) (v : β) :
    ainsert ((k', v') :: rest) k v =
      if k' = k then (k, v) :: rest else (k', v') :: ainsert rest k v := rfl

theorem alookup_ainsert_self {α β : Type} [DecidableEq α]
    (l : List (α × β)) (k : α) (v : β) : alookup (ainsert l k v) k = some v := by
  induction l with
  | nil => simp [ainsert, alookup]
  | cons p rest ih =>
      obtain ⟨k', v'⟩ := p
      by_cases hk : k' = k <;> simp [ainsert, alookup, hk, ih]

theorem alookup_ainsert_ne {α β : Type} [DecidableEq α]
    (l : List (α × β)) (k k₀ : α) (v : β) (hne : k ≠ k₀) :
    alookup (ainsert l k v) k₀ = alookup l k₀ := by
  induction l with
  | nil => simp [ainsert, alookup, hne]
  | cons p rest ih =>
      obtain ⟨k', v'⟩ := p
      by_cases hk : k' = k
      · subst hk; simp [ainsert, alookup, hne]
      · simp [ainsert, alookup, hk, ih]

theorem alookup_eq_none_of_not_mem_keys {α β : Type} [DecidableEq α]
    (l : List (α × β)) (k : α) (h : k ∉ l.map Prod.fst) : alookup l k = none := by
  induction l with
  | nil => rfl
  | cons p rest ih =>
      obtain ⟨k', v'⟩ := p
      simp only [List.map_cons, List.mem_cons] at h
      push_neg at h
      have hk : ¬ k' = k := fun hip => h.1 hip.symm
      rw [alookup_cons, if_neg hk]
      exact ih h.2

theorem mem_keys_of_alookup_eq_some {α β : Type} [DecidableEq α]
    (l : List (α × β)) (k : α) (v : β) (h : alookup l k = some v) :
    k ∈ l.map Prod.fst := by
  induction l with
  | nil => simp [alookup] at h
  | cons p rest ih =>
      obtain ⟨k', v'⟩ := p
      by_cases hk : k' = k
      · subst hk; simp
      · simp only [alookup_cons, if_neg hk] at h
        simpa using Or.inr (ih h)

theorem alookup_aremove_self {α β : Type} [DecidableEq α]
    (l : List (α × β)) (k : α) (hnd : (l.map Prod.fst).Nodup) :
    alookup (aremove l k) k = none := by
  induction l with
  | nil => rfl
  | cons p rest ih =>
      obtain ⟨k', v'⟩ := p
      simp only [List.map_cons, List.nodup_cons] at hnd
      by_cases hk : k' = k
      · subst hk
        simp only [aremove, if_pos rfl]
        exact alookup_eq_none_of_not_mem_keys rest k' hnd.1
      · simp [aremove, hk, alookup, ih hnd.2]

theorem keys_filter_subset {α β : Type} [DecidableEq α]
    (l : List (α × β)) (p : α × β → Bool) (x : α)
    (hx : x ∈ (l.filter p).map Prod.fst) : x ∈ l.map Prod.fst := by
  rcases List.mem_map.mp hx with ⟨q, hq, hfst⟩
  exact List.mem_map.mpr ⟨q, List.mem_of_mem_filter hq, hfst⟩

theorem alookup_filter {α β : Type} [DecidableEq α]
    (l : List (α × β)) (p : α × β → Bool) (k : α) (v : β)
    (hnd : (l.map Prod.fst).Nodup) (h : alookup l k = some v) :
    alookup (l.filter p) k = if p (k, v) then some v else none := by
  induction l with
  | nil => simp [alookup] at h
  | cons q rest ih =>
      obtain ⟨k', v'⟩ := q
      simp only [List.map_cons, List.nodup_cons] at hnd
      by_cases hk : k' = k
      · subst hk
        rw [alookup_cons, if_pos rfl] at h
        rw [Option.some.injEq] at h
        subst h
        have hnone : alookup (rest.filter p) k' = none :=
          alookup_eq_none_of_not_mem_keys _ _
            (fun hmem => hnd.1 (keys_filter_subset rest p k' hmem))
        by_cases hp : p (k', v')
        · rw [List.filter_cons, if_pos (by simpa using hp), alookup_cons,
            if_pos rfl, if_pos hp]
        · rw [List.filter_cons, if_neg (by simpa using hp), if_neg hp]
          exact hnone
      · rw [alookup_cons, if_neg hk] at h
        by_cases hp : p (k', v')
        · rw [List.filter_cons, if_pos (by simpa using hp), alookup_cons,
            if_neg hk]
          exact ih hnd.2 h
        · rw [List.filter_cons, if_neg (by simpa using hp)]
          exact ih hnd.2 h

theorem keys_ainsert_subset {α β : Type} [DecidableEq α]
    (l : List (α × β)) (k : α) (v : β) (x : α)
    (hx : x ∈ (ainsert l k v).map Prod.fst) : x ∈ l.map Prod.fst ∨ x = k := by
  induction l with
  | nil =>
      rw [ainsert_nil] at hx
      right
      simpa using hx
  | cons p rest ih =>
      obtain ⟨k', v'⟩ := p
      by_cases hk : k' = k
      · subst hk
        rw [ainsert_cons, if_pos rfl, List.map_cons] at hx
        rcases List.mem_cons.mp hx with hx | hx
        · exact Or.inr hx
        · exact Or.inl (List.mem_cons.mpr (Or.inr hx))
      · rw [ainsert_cons, if_neg hk, List.map_cons] at hx
        rcases List.mem_cons.mp hx with hx | hx
        · exact Or.inl (List.mem_cons.mpr (Or.inl hx))
        · rcases ih hx with h | h
          · exact Or.inl (List.mem_cons.mpr (Or.inr h))
          · exact Or.inr h

theorem nodup_keys_ainsert {α β : Type} [DecidableEq α]
    (l : List (α × β)) (k : α) (v : β) (hnd : (l.map Prod.fst).Nodup) :
    ((ainsert l k v).map Prod.fst).Nodup := by
  induction l with
  | nil => simp [ainsert]
  | cons p rest ih =>
      obtain ⟨k', v'⟩ := p
      rw [List.map_cons, List.nodup_cons] at hnd
      by_cases hk : k' = k
      · subst hk
        rw [ainsert_cons, if_pos rfl, List.map_cons, List.nodup_cons]
        exact hnd
      · rw [ainsert_cons, if_neg hk, List.map_cons, List.nodup_cons]
        refine ⟨fun hmem => ?_, ih hnd.2⟩
        rcases keys_ainsert_subset rest k v k' hmem with h | h
        · exact hnd.1 h
        · exact hk h

/-- Number of entries carrying a given key. -/
def countKey {α β : Type} [DecidableEq α] (l : List (α × β)) (k : α) : ℕ :=
  (l.filter (fun p => decide (p.1 = k))).length

theorem countKey_cons {α β : Type} [DecidableEq α]
    (k' : α) (v' : β) (rest : List (α × β)) (k : α) :
    countKey ((k', v') :: rest) k =
      (if k' = k then 1 else 0) + countKey rest k := by
  by_cases hk : k' = k
  · simp [countKey, List.filter_cons, hk, Nat.add_comm]
  · simp [countKey, List.filter_cons, hk]

theorem countKey_eq_zero_of_not_mem {α β : Type} [DecidableEq α]
    (l : List (α × β)) (k : α) (h : k ∉ l.map Prod.fst) : countKey l k = 0 := by
  induction l with
  | nil => rfl
  | cons p rest ih =>
      obtain ⟨k', v'⟩ := p
      simp only [List.map_cons, List.mem_cons] at h
      push_neg at h
      rw [countKey_cons, if_neg (fun hip => h.1 hip.symm), ih h.2]

theorem countKey_ainsert_self {α β : Type} [DecidableEq α]
    (l : List (α × β)) (k : α) (v : β) (hnd : (l.map Prod.fst).Nodup) :
    countKey (ainsert l k v) k = 1 := by
  induction l with
  | nil => simp [ainsert, countKey, List.filter]
  | cons p rest ih =>
      obtain ⟨k', v'⟩ := p
      rw [List.map_cons, List.nodup_cons] at hnd
      by_cases hk : k' = k
      · subst hk
        rw [ainsert_cons, if_pos rfl, countKey_cons, if_pos rfl,
          countKey_eq_zero_of_not_mem rest k' hnd.1]
      · rw [ainsert_cons, if_neg hk, countKey_cons, if_neg hk, ih hnd.2]

/-! ## Websocket connection registry (`app/ws_manager.py`) -/

/-- State of the singleton `ConnectionManager`.  `active_connections` is the
dict mapping a session token to the websocket handle of the listening
desktop; `closed` records every handle on which close has been called
(the source manager itself never closes a handle). -/
structure ConnectionManager where
  active_connections : List (String × ℕ)
  closed : List ℕ
deriving DecidableEq

/-- Method connect: `await websocket.accept()` (transport handshake, no
registry effect) followed by `self.active_connections[token] = websocket`.
No handle is closed. -/
def ConnectionManager.connect (m : ConnectionManager) (websocket : ℕ)
    (token : String) : ConnectionManager :=
  { m with active_connections := ainsert m.active_connections token websocket }

/-- Method disconnect: `if token in self.active_connections: del ...`. -/
def ConnectionManager.disconnect (m : ConnectionManager) (token : String) :
    ConnectionManager :=
  { m with active_connections := aremove m.active_connections token }

/-- Method send_message: delivers to `self.active_connections[token]` when
the token is present; returns the handle the message was delivered to
(none models the silent no-listener case). -/
def ConnectionManager.send_message (m : ConnectionManager) (token : String) :
    Option ℕ :=
  alookup m.active_connections token

/-! ## Capture-pairing token store (`app/capture.py`) -/

/-- One entry of the `capture_sessions` dict:
`{ "session_info": dict, "created_at": datetime }`. -/
structure CaptureData where
  session_info : String
  created_at : ℚ
deriving DecidableEq

/-- Configured TTL: `SESSION_TTL = 3600`. -/
def SESSION_TTL : ℚ := 3600

/-- Function `_cleanup_sessions`: drops every entry whose age, at the time
of the sweep, strictly exceeds the TTL. -/
def cleanup_sessions (now : ℚ) (sessions : List (String × CaptureData)) :
    List (String × CaptureData) :=
  sessions.filter (fun p => decide (¬ (now - p.2.created_at > SESSION_TTL)))

/-- Function `_get_capture_session`: sweeps, looks the token up, and
re-checks liveness of the found entry, evicting it when expired.  The
source calls `datetime.utcnow()` once in the sweep and once for the age
check, hence the two clock arguments (`now₁ ≤ now₂` in any real trace).
Returns the lookup outcome together with the updated store. -/
def get_capture_session (now₁ now₂ : ℚ) (sessions : List (String × CaptureData))
    (token : String) : Option CaptureData × List (String × CaptureData) :=
  let s₁ := cleanup_sessions now₁ sessions
  match alookup s₁ token with
  | none => (none, s₁)
  | some d =>
      if now₂ - d.created_at > SESSION_TTL then (none, aremove s₁ token)
      else (some d, s₁)

/-- Combined process state shared by the capture router and the websocket
manager: the module-level `capture_sessions` dict and the singleton
`manager`. -/
structure SysState where
  capture_sessions : List (String × CaptureData)
  manager : ConnectionManager
deriving DecidableEq

/-- Endpoint `/capture/start`: sweep, then store a fresh token.  The uuid
token is passed in (fresh by uuid4 entropy). -/
def start_capture_session (now : ℚ) (token : String) (info : String)
    (st : SysState) : SysState :=
  { st with capture_sessions :=
      ainsert (cleanup_sessions now st.capture_sessions) token ⟨info, now⟩ }

/-- Store lookup as invoked by the endpoints: `_get_capture_session` touches
only `capture_sessions`; the connection registry is not consulted. -/
def sys_get_capture_session (now₁ now₂ : ℚ) (st : SysState) (token : String) :
    Option CaptureData × SysState :=
  let r := get_capture_session now₁ now₂ st.capture_sessions token
  (r.1, { st with capture_sessions := r.2 })

/-- Endpoint `/ws/capture/{token}` up to the accept: reject (close code
4003) when `_get_capture_session` is none, otherwise register the handle
via `manager.connect`.  The boolean reports acceptance. -/
def websocket_endpoint_attach (now₁ now₂ : ℚ) (st : SysState) (websocket : ℕ)
    (token : String) : SysState × Bool :=
  match sys_get_capture_session now₁ now₂ st token with
  | (none, st') => (st', false)
  | (some _, st') =>
      ({ st' with manager := st'.manager.connect websocket token }, true)

/-- Endpoint delete `/capture/session/{token}`:
`capture_sessions.pop(token, None)`; a missing token answers 404 (false)
without touching the manager, otherwise `manager.disconnect(token)` runs. -/
def end_capture_session (st : SysState) (token : String) : SysState × Bool :=
  match alookup st.capture_sessions token with
  | none => (st, false)
  | some _ =>
      ({ capture_sessions := aremove st.capture_sessions token,
         manager := st.manager.disconnect token }, true)

/-! ## Face recognizer (`app/face_recognition.py`) -/

/-- State of the `FaceRecognizer` instance plus the durable `.pkl`
directory it persists to:
* `embeddings`: the pre-computed enrolled vectors loaded from disk,
  keyed by student id;
* `session_cache`: per-session transient cache, keyed by session id and
  then by the (possibly missing) student id the loop passed in;
* `embeddings_dir`: the durable per-student records under
  `settings.EMBEDDINGS_DIR`. -/
structure FaceRecognizerState where
  embeddings : List (String × Emb)
  session_cache : List (String × List (Option String × Emb))
  embeddings_dir : List (String × Emb)
deriving DecidableEq

/-- Configured acceptance threshold: `RECOGNITION_THRESHOLD = 0.45`. -/
def RECOGNITION_THRESHOLD : ℚ := 9/20

/-- One roster entry as consumed by the loop: a dict with optional
fields, read via `student.get('id')`, `student.get('nom', 'Unknown')`
and `student.get('image')`. -/
structure Student where
  id : Option String
  nom : Option String
  image : Option String
deriving DecidableEq

/-- Result triple of `recognize_face_from_students`:
`(student_id, student_name, confidence)`. -/
structure RecResult where
  student_id : Option String
  student_name : Option String
  confidence : ℚ
deriving DecidableEq

/-- Method `save_embedding`: attempts the durable pickle write and only
then installs the in-memory map entry; an exception during the write
(modelled by `writeOk = false`) is caught and reported as `false`,
leaving the state untouched. -/
def save_embedding (st : FaceRecognizerState) (student_id : String)
    (embedding : Emb) (writeOk : Bool) : FaceRecognizerState × Bool :=
  if writeOk then
    ({ st with
        embeddings_dir := ainsert st.embeddings_dir student_id embedding,
        embeddings := ainsert st.embeddings student_id embedding }, true)
  else (st, false)

/-- Method `clear_session_cache`: `if session_id in self.session_cache:
del self.session_cache[session_id]`. -/
def clear_session_cache (st : FaceRecognizerState) (session_id : String) :
    FaceRecognizerState :=
  { st with session_cache := aremove st.session_cache session_id }

/-- Method `get_or_extract_embedding`.  Checks the pre-computed enrolled
vectors, then the session cache, and only then decodes and extracts;
a freshly extracted embedding is written through to the session cache
when it is truthy (Python `if embedding:` — non-empty).  The returned
boolean is the observation "the extraction pipeline ran".  An `.error`
of the oracle models the exception `_base64_to_image` may raise, which
propagates to the caller here. -/
def get_or_extract_embedding (extractOracle : String → Except Unit (Option Emb))
    (st : FaceRecognizerState) (student_id : Option String)
    (student_image : String) (session_id : String) :
    Except Unit (Option Emb × FaceRecognizerState × Bool) :=
  match student_id.bind (alookup st.embeddings) with
  | some e => .ok (some e, st, false)
  | none =>
    match (alookup st.session_cache session_id).bind
        (fun c => alookup c student_id) with
    | some e => .ok (some e, st, false)
    | none =>
      match extractOracle student_image with
      | .error u => .error u
      | .ok none => .ok (none, st, true)
      | .ok (some e) =>
          if e.isEmpty then .ok (some e, st, true)
          else
            .ok (some e,
              { st with session_cache :=
                  (ainsert st.session_cache session_id
                    (ainsert ((alookup st.session_cache session_id).getD [])
                      student_id e)) }, true)

/-- Inline step of `recognize_face_from_students` before the roster loop:
`if session_id not in self.session_cache: self.session_cache[session_id] = {}`. -/
def init_session_cache (st : FaceRecognizerState) (session_id : String) :
    FaceRecognizerState :=
  match alookup st.session_cache session_id with
  | some _ => st
  | none => { st with session_cache := ainsert st.session_cache session_id [] }

/-- Roster loop of `recognize_face_from_students`, threading the running
best `(best_match_id, best_match_name, min_distance)` and the recognizer
state.  A member without a truthy image is skipped; an exception during
its processing (`.error` of `get_or_extract_embedding`) or a failed
resolution (none) skips it as well; otherwise its distance to the probe
is compared against the running minimum, replacing it only when strictly
smaller. -/
def recognize_loop (dist : Emb → Emb → ℚ)
    (extractOracle : String → Except Unit (Option Emb)) (session_id : String)
    (uploaded_embedding : Emb) :
    List Student → (Option String × Option String × ℚ) → FaceRecognizerState →
    (Option String × Option String × ℚ) × FaceRecognizerState
  | [], acc, st => (acc, st)
  | student :: rest, acc, st =>
      match student.image with
      | none => recognize_loop dist extractOracle session_id uploaded_embedding rest acc st
      | some img =>
        if img = "" then
          recognize_loop dist extractOracle session_id uploaded_embedding rest acc st
        else
          match get_or_extract_embedding extractOracle st student.id img session_id with
          | .error _ =>
              recognize_loop dist extractOracle session_id uploaded_embedding rest acc st
          | .ok (none, st', _) =>
              recognize_loop dist extractOracle session_id uploaded_embedding rest acc st'
          | .ok (some e, st', _) =>
              let d := dist uploaded_embedding e
              if d < acc.2.2 then
                recognize_loop dist extractOracle session_id uploaded_embedding rest
                  (student.id, some (student.nom.getD ("Unknown")), d) st'
              else
                recognize_loop dist extractOracle session_id uploaded_embedding rest acc st'

/-- Method `recognize_face_from_students`.  Extracts the probe embedding
(`(None, None, 0.0)` if no face), initialises the session cache, runs the
roster loop with `min_distance` starting at `1.0`, and accepts the best
match iff `min_distance <= threshold`, reporting
`confidence = 1 - min_distance` in both branches.  The threshold is the
configured `settings.RECOGNITION_THRESHOLD` (default `9/20`). -/
def recognize_face_from_students (dist : Emb → Emb → ℚ)
    (extractOracle : String → Except Unit (Option Emb)) (threshold : ℚ)
    (st : FaceRecognizerState) (uploaded_base64_image : String)
    (students : List Student) (session_id : String) :
    Except Unit (RecResult × FaceRecognizerState) :=
  match extractOracle uploaded_base64_image with
  | .error u => .error u
  | .ok none => .ok (⟨none, none, 0⟩, st)
  | .ok (some uploaded_embedding) =>
      let st₁ := init_session_cache st session_id
      let r := recognize_loop dist extractOracle session_id uploaded_embedding
        students (none, none, 1) st₁
      let confidence := 1 - r.1.2.2
      if r.1.2.2 ≤ threshold then
        .ok (⟨r.1.1, r.1.2.1, confidence⟩, r.2)
      else
        .ok (⟨none, none, confidence⟩, r.2)

/-! ## Derived characterisation of the roster loop

The loop is re-expressed as a pure fold over the list of comparisons it
actually performed: for each roster member that had a truthy image and
whose vector resolution succeeded, the entry `(id, name, distance)`, in
roster order and threaded through the same cache-state evolution. -/

/-- Record of one performed comparison: the member id (as passed to the
tracker), its display name and its cosine distance to the probe. -/
abbrev CompEntry := Option String × String × ℚ

/-- State evolution of the roster loop, independent of the running best. -/
def compState (extractOracle : String → Except Unit (Option Emb))
    (session_id : String) :
    List Student → FaceRecognizerState → FaceRecognizerState
  | [], st => st
  | student :: rest, st =>
      match student.image with
      | none => compState extractOracle session_id rest st
      | some img =>
        if img = "" then compState extractOracle session_id rest st
        else
          match get_or_extract_embedding extractOracle st student.id img session_id with
          | .error _ => compState extractOracle session_id rest st
          | .ok (_, st', _) => compState extractOracle session_id rest st'

/-- Comparisons the roster loop performs, in order. -/
def comparisons (dist : Emb → Emb → ℚ)
    (extractOracle : String → Except Unit (Option Emb)) (session_id : String)
    (uploaded_embedding : Emb) :
    List Student → FaceRecognizerState → List CompEntry
  | [], _ => []
  | student :: rest, st =>
      match student.image with
      | none => comparisons dist extractOracle session_id uploaded_embedding rest st
      | some img =>
        if img = "" then
          comparisons dist extractOracle session_id uploaded_embedding rest st
        else
          match get_or_extract_embedding extractOracle st student.id img session_id with
          | .error _ =>
              comparisons dist extractOracle session_id uploaded_embedding rest st
          | .ok (none, st', _) =>
              comparisons dist extractOracle session_id uploaded_embedding rest st'
          | .ok (some e, st', _) =>
              (student.id, student.nom.getD ("Unknown"), dist uploaded_embedding e) ::
                comparisons dist extractOracle session_id uploaded_embedding rest st'

/-- Pure running-minimum fold underlying the loop. -/
def bestFold : List CompEntry → (Option String × Option String × ℚ) →
    Option String × Option String × ℚ
  | [], acc => acc
  | (i, n, d) :: rest, acc =>
      if d < acc.2.2 then bestFold rest (i, some n, d) else bestFold rest acc

/-- Running minimum of the compared distances, seeded by the initial
value of the tracker. -/
def minAcc (cs : List CompEntry) (m : ℚ) : ℚ :=
  cs.foldl (fun a e => min a e.2.2) m

theorem minAcc_nil (m : ℚ) : minAcc [] m = m := rfl

theorem minAcc_cons (i : Option String) (n : String) (d : ℚ)
    (cs : List CompEntry) (m : ℚ) :
    minAcc ((i, n, d) :: cs) m = minAcc cs (min m d) := rfl

theorem minAcc_le (cs : List CompEntry) (m : ℚ) : minAcc cs m ≤ m := by
  induction cs generalizing m with
  | nil => exact le_refl m
  | cons e rest ih =>
      obtain ⟨i, n, d⟩ := e
      rw [minAcc_cons]
      exact le_trans (ih (min m d)) (min_le_left m d)

theorem le_minAcc_iff (cs : List CompEntry) (m a : ℚ) :
    a ≤ minAcc cs m ↔ a ≤ m ∧ ∀ e ∈ cs, a ≤ e.2.2 := by
  induction cs generalizing m with
  | nil => simp [minAcc_nil]
  | cons e rest ih =>
      obtain ⟨i, n, d⟩ := e
      rw [minAcc_cons, ih, le_min_iff]
      constructor
      · rintro ⟨⟨h₁, h₂⟩, h₃⟩
        exact ⟨h₁, by
          intro q hq
          rcases List.mem_cons.mp hq with hq | hq
          · subst hq; exact h₂
          · exact h₃ q hq⟩
      · rintro ⟨h₁, h₂⟩
        exact ⟨⟨h₁, h₂ (i, n, d) (List.mem_cons_self _ _)⟩,
          fun q hq => h₂ q (List.mem_cons.mpr (Or.inr hq))⟩

theorem bestFold_min (cs : List CompEntry) (bi bn : Option String) (m : ℚ) :
    (bestFold cs (bi, bn, m)).2.2 = minAcc cs m := by
  induction cs generalizing bi bn m with
  | nil => rfl
  | cons e rest ih =>
      obtain ⟨i, n, d⟩ := e
      rw [minAcc_cons]
      by_cases hd : d < m
      · rw [bestFold, if_pos hd, ih, min_eq_right (le_of_lt hd)]
      · rw [bestFold, if_neg hd, ih, min_eq_left (le_of_not_lt hd)]

theorem bestFold_stay (cs : List CompEntry) (bi bn : Option String) (m : ℚ)
    (h : ∀ e ∈ cs, m ≤ e.2.2) : bestFold cs (bi, bn, m) = (bi, bn, m) := by
  induction cs with
  | nil => rfl
  | cons e rest ih =>
      obtain ⟨i, n, d⟩ := e
      have hd : ¬ d < m := not_lt.mpr (h (i, n, d) (List.mem_cons_self _ _))
      rw [bestFold, if_neg hd]
      exact ih (fun q hq => h q (List.mem_cons.mpr (Or.inr hq)))

theorem bestFold_find (cs : List CompEntry) (bi bn : Option String) (m : ℚ)
    (h : minAcc cs m < m) :
    ∃ e, cs.find? (fun x => decide (x.2.2 = minAcc cs m)) = some e ∧
      bestFold cs (bi, bn, m) = (e.1, some e.2.1, e.2.2) ∧
      e.2.2 = minAcc cs m := by
  induction cs generalizing bi bn m with
  | nil => exact absurd h (lt_irrefl m)
  | cons q rest ih =>
      obtain ⟨i, n, d⟩ := q
      rw [minAcc_cons] at h ⊢
      by_cases hd : d < m
      · rw [min_eq_right (le_of_lt hd)] at h ⊢
        by_cases hrest : minAcc rest d < d
        · obtain ⟨e, hfind, hbf, hde⟩ := ih i (some n) d hrest
          refine ⟨e, ?_, ?_, hde⟩
          · rw [List.find?_cons]
            have : (decide (d = minAcc rest d)) = false := by
              simp [ne_of_gt hrest]
            rw [this]
            exact hfind
          · rw [bestFold, if_pos hd]
            exact hbf
        · have heq : minAcc rest d = d :=
            le_antisymm (minAcc_le rest d) (le_of_not_lt hrest)
          refine ⟨(i, n, d), ?_, ?_, by simp [heq]⟩
          · rw [List.find?_cons]
            have : (decide (d = minAcc rest d)) = true := by simp [heq]
            rw [this]
          · rw [bestFold, if_pos hd, bestFold_stay]
            intro q hq
            exact ((le_minAcc_iff rest d d).mp (le_of_eq heq.symm)).2 q hq
      · rw [min_eq_left (le_of_not_lt hd)] at h ⊢
        obtain ⟨e, hfind, hbf, hde⟩ := ih bi bn m h
        refine ⟨e, ?_, ?_, hde⟩
        · rw [List.find?_cons]
          have : (decide (d = minAcc rest m)) = false := by
            have : minAcc rest m < d := lt_of_lt_of_le h (le_of_not_lt hd)
            simp [ne_of_gt this]
          rw [this]
          exact hfind
        · rw [bestFold, if_neg hd]
          exact hbf

/-- The roster loop is the pure fold over the comparisons it performs,
with the cache state evolving independently of the tracker. -/
theorem recognize_loop_eq (dist : Emb → Emb → ℚ)
    (extractOracle : String → Except Unit (Option Emb)) (session_id : String)
    (up : Emb) (students : List Student)
    (acc : Option String × Option String × ℚ) (st : FaceRecognizerState) :
    recognize_loop dist extractOracle session_id up students acc st =
      (bestFold (comparisons dist extractOracle session_id up students st) acc,
       compState extractOracle session_id students st) := by
  induction students generalizing acc st with
  | nil => rfl
  | cons student rest ih =>
      rcases himg : student.image with _ | img
      · simp only [recognize_loop, comparisons, compState, himg]
        exact ih acc st
      · by_cases hemp : img = ""
        · simp only [recognize_loop, comparisons, compState, himg, if_pos hemp]
          exact ih acc st
        · rcases hgoe : get_or_extract_embedding extractOracle st student.id img session_id with
            u | ⟨eo, st', b⟩
          · simp only [recognize_loop, comparisons, compState, himg, if_neg hemp, hgoe]
            exact ih acc st
          · rcases eo with _ | e
            · simp only [recognize_loop, comparisons, compState, himg, if_neg hemp, hgoe]
              exact ih acc st'
            · simp only [recognize_loop, comparisons, compState, himg, if_neg hemp, hgoe,
                bestFold]
              by_cases hd : dist up e < acc.2.2
              · rw [if_pos hd, if_pos hd]
                exact ih _ st'
              · rw [if_neg hd, if_neg hd]
                exact ih acc st'

/-! ## Concrete instances used by witnesses and counterexamples -/

/-- Cosine distance of the source (`1 - dot(a,b) / (norm(a) * norm(b))`)
specialised to one-dimensional vectors, where the euclidean norm is the
absolute value and the formula is exactly representable over ℚ.  On the
vectors `[1]` and `[-1]` it attains the value 2, the upper end of the
cosine-distance range. -/
def cosDist1 (a b : Emb) : ℚ :=
  1 - (a.headD 0 * b.headD 0) / (|a.headD 0| * |b.headD 0|)

/-- Concrete extraction oracle: the probe image resolves to `[1]`; the
enrolled photo of student A to `[-1]` (diametrically opposite); two
tie-breaking photos both to `[1]`; one photo raises while decoding; any
other image has no detectable face. -/
def exOracle : String → Except Unit (Option Emb) := fun s =>
  if s = "probeImg" then .ok (some [1])
  else if s = "imgA" then .ok (some [-1])
  else if s = "imgT1" then .ok (some [1])
  else if s = "imgT2" then .ok (some [1])
  else if s = "imgBad" then .error ()
  else .ok none

/-- Roster member A, whose photo embeds opposite to the probe. -/
def stuA : Student := ⟨some ("A"), some ("Alice"), some ("imgA")⟩

/-- First of two roster members tied at distance 0 from the probe. -/
def stuT1 : Student := ⟨some ("T1"), some ("Tina"), some ("imgT1")⟩

/-- Second of the two tied roster members. -/
def stuT2 : Student := ⟨some ("T2"), some ("Tom"), some ("imgT2")⟩

/-- Recognizer state with nothing enrolled and nothing cached. -/
def emptyRec : FaceRecognizerState := ⟨[], [], []⟩

/-! ## Claim C1 -/

/-- Amended result specification for claim C1: the running minimum starts
at 1.0, so the reported value is `min 1 (min of the compared distances)`
rather than the bare minimum; the returned identity is the first compared
member attaining that value whenever it clears the threshold. -/
def clampedBest (cs : List CompEntry) (threshold : ℚ) : RecResult :=
  if minAcc cs 1 ≤ threshold then
    match cs.find? (fun e => decide (e.2.2 = minAcc cs 1)) with
    | some e => ⟨e.1, some e.2.1, 1 - minAcc cs 1⟩
    | none => ⟨none, none, 1 - minAcc cs 1⟩
  else ⟨none, none, 1 - minAcc cs 1⟩

/-- C1 (counterexample).  The claim states that the returned confidence
equals 1 minus the minimum cosine distance over the compared roster
members.  With the single roster member A at cosine distance 2 from the
probe (probe embedding `[1]`, enrolled embedding `[-1]`), the code
returns confidence 0, not `1 - 2 = -1`: the running minimum is
initialised to 1.0 and a distance above 1.0 never updates it. -/
theorem recognize_confidence_clamped_cex :
    recognize_face_from_students cosDist1 exOracle RECOGNITION_THRESHOLD
        emptyRec ("probeImg") [stuA] ("sess") =
      .ok (⟨none, none, 0⟩,
        ⟨[], [("sess", [(some ("A"), [-1])])], []⟩) ∧
    comparisons cosDist1 exOracle ("sess") [1] [stuA]
        (init_session_cache emptyRec ("sess")) = [(some ("A"), "Alice", 2)] ∧
    (0 : ℚ) ≠ 1 - 2 := by
  refine ⟨?_, ?_, by norm_num⟩
  · simp [recognize_face_from_students, exOracle, init_session_cache,
      recognize_loop, get_or_extract_embedding, alookup, ainsert, cosDist1,
      stuA, emptyRec, RECOGNITION_THRESHOLD]
    all_goals norm_num
  · simp [comparisons, exOracle, init_session_cache,
      get_or_extract_embedding, alookup, ainsert, cosDist1, stuA, emptyRec]
    all_goals norm_num

/-- C1 (amended).  For a detected probe face and any threshold below 1
(the configured value is 9/20), the call returns exactly the clamped
characterisation: the returned confidence is
`1 - min 1 (minimum compared distance)`, a match is returned iff that
clamped minimum is at or below the threshold (so a candidate at distance
exactly the threshold is accepted), and the matched identity is the
first compared member attaining the minimum. -/
theorem recognize_result_characterisation (dist : Emb → Emb → ℚ)
    (extractOracle : String → Except Unit (Option Emb)) (threshold : ℚ)
    (st : FaceRecognizerState) (probe : String) (students : List Student)
    (session_id : String) (up : Emb) (hT : threshold < 1)
    (hup : extractOracle probe = .ok (some up)) :
    recognize_face_from_students dist extractOracle threshold st probe
        students session_id =
      .ok (clampedBest
            (comparisons dist extractOracle session_id up students
              (init_session_cache st session_id)) threshold,
           compState extractOracle session_id students
             (init_session_cache st session_id)) := by
  simp only [recognize_face_from_students, hup]
  rw [recognize_loop_eq]
  set cs := comparisons dist extractOracle session_id up students
    (init_session_cache st session_id) with hcs
  by_cases hm : minAcc cs 1 ≤ threshold
  · have hlt : minAcc cs 1 < 1 := lt_of_le_of_lt hm hT
    obtain ⟨e, hfind, hbf, hde⟩ := bestFold_find cs none none 1 hlt
    rw [clampedBest, if_pos hm, hfind, hbf]
    simp only [hde]
    rw [if_pos hm]
  · rw [clampedBest, if_neg hm]
    have hmin := bestFold_min cs none none 1
    rw [if_neg (by rw [hmin]; exact hm), hmin]

/-- C1 (witness for the amended theorem): at the concrete probe and
roster member A, the hypotheses hold and the characterisation applies. -/
theorem recognize_result_characterisation_witness :
    RECOGNITION_THRESHOLD < 1 ∧
    exOracle ("probeImg") = .ok (some [1]) ∧
    recognize_face_from_students cosDist1 exOracle RECOGNITION_THRESHOLD
        emptyRec ("probeImg") [stuA] ("sess") =
      .ok (clampedBest
            (comparisons cosDist1 exOracle ("sess") [1] [stuA]
              (init_session_cache emptyRec ("sess"))) RECOGNITION_THRESHOLD,
           compState exOracle ("sess") [stuA]
             (init_session_cache emptyRec ("sess"))) :=
  ⟨by norm_num [RECOGNITION_THRESHOLD], rfl,
    recognize_result_characterisation cosDist1 exOracle RECOGNITION_THRESHOLD
      emptyRec ("probeImg") [stuA] ("sess") [1]
      (by norm_num [RECOGNITION_THRESHOLD]) rfl⟩

/-! ## Claim C5 -/

/-- C5.  When two or more compared roster members attain the minimal
distance and that minimum clears the (sub-1) threshold, the returned
match is the first minimum-attaining entry in roster order: the running
minimum is only replaced on a strictly smaller distance, so the
first-encountered candidate of the tied value survives.  The function is
deterministic by construction, so this holds on every run. -/
theorem recognize_tie_keeps_first (dist : Emb → Emb → ℚ)
    (extractOracle : String → Except Unit (Option Emb)) (threshold : ℚ)
    (st : FaceRecognizerState) (probe : String) (students : List Student)
    (session_id : String) (up : Emb) (hT : threshold < 1)
    (hup : extractOracle probe = .ok (some up))
    (htie : 2 ≤ ((comparisons dist extractOracle session_id up students
        (init_session_cache st session_id)).filter
        (fun e => decide (e.2.2 = minAcc (comparisons dist extractOracle
          session_id up students (init_session_cache st session_id)) 1))).length)
    (hsel : minAcc (comparisons dist extractOracle session_id up students
        (init_session_cache st session_id)) 1 ≤ threshold) :
    ∃ e, (comparisons dist extractOracle session_id up students
        (init_session_cache st session_id)).find?
        (fun x => decide (x.2.2 = minAcc (comparisons dist extractOracle
          session_id up students (init_session_cache st session_id)) 1)) = some e ∧
      recognize_face_from_students dist extractOracle threshold st probe
          students session_id =
        .ok (⟨e.1, some e.2.1,
              1 - minAcc (comparisons dist extractOracle session_id up students
                (init_session_cache st session_id)) 1⟩,
             compState extractOracle session_id students
               (init_session_cache st session_id)) := by
  simp only [recognize_face_from_students, hup]
  rw [recognize_loop_eq]
  set cs := comparisons dist extractOracle session_id up students
    (init_session_cache st session_id) with hcs
  have hlt : minAcc cs 1 < 1 := lt_of_le_of_lt hsel hT
  obtain ⟨e, hfind, hbf, hde⟩ := bestFold_find cs none none 1 hlt
  refine ⟨e, hfind, ?_⟩
  rw [hbf]
  simp only [hde]
  rw [if_pos hsel]

/-- C5 (witness): two roster members both at distance 0 from the probe;
the returned identity is the first of them. -/
theorem recognize_tie_keeps_first_witness :
    RECOGNITION_THRESHOLD < 1 ∧
    exOracle ("probeImg") = .ok (some [1]) ∧
    2 ≤ ((comparisons cosDist1 exOracle ("sess") [1] [stuT1, stuT2]
        (init_session_cache emptyRec ("sess"))).filter
        (fun e => decide (e.2.2 = minAcc (comparisons cosDist1 exOracle
          ("sess") [1] [stuT1, stuT2]
          (init_session_cache emptyRec ("sess"))) 1))).length ∧
    minAcc (comparisons cosDist1 exOracle ("sess") [1] [stuT1, stuT2]
        (init_session_cache emptyRec ("sess"))) 1 ≤ RECOGNITION_THRESHOLD ∧
    ∃ e, (comparisons cosDist1 exOracle ("sess") [1] [stuT1, stuT2]
        (init_session_cache emptyRec ("sess"))).find?
        (fun x => decide (x.2.2 = minAcc (comparisons cosDist1 exOracle
          ("sess") [1] [stuT1, stuT2]
          (init_session_cache emptyRec ("sess"))) 1)) = some e ∧
      recognize_face_from_students cosDist1 exOracle RECOGNITION_THRESHOLD
          emptyRec ("probeImg") [stuT1, stuT2] ("sess") =
        .ok (⟨e.1, some e.2.1,
              1 - minAcc (comparisons cosDist1 exOracle ("sess") [1]
                [stuT1, stuT2] (init_session_cache emptyRec ("sess"))) 1⟩,
             compState exOracle ("sess") [stuT1, stuT2]
               (init_session_cache emptyRec ("sess"))) :=
  ⟨by norm_num [RECOGNITION_THRESHOLD], rfl,
    by
      simp [comparisons, exOracle, init_session_cache, get_or_extract_embedding,
        alookup, ainsert, cosDist1, stuT1, stuT2, emptyRec, minAcc]
      all_goals norm_num,
    by
      simp [comparisons, exOracle, init_session_cache, get_or_extract_embedding,
        alookup, ainsert, cosDist1, stuT1, stuT2, emptyRec, minAcc,
        RECOGNITION_THRESHOLD]
      all_goals norm_num,
    recognize_tie_keeps_first cosDist1 exOracle RECOGNITION_THRESHOLD emptyRec
      ("probeImg") [stuT1, stuT2] ("sess") [1]
      (by norm_num [RECOGNITION_THRESHOLD]) rfl
      (by
        simp [comparisons, exOracle, init_session_cache, get_or_extract_embedding,
          alookup, ainsert, cosDist1, stuT1, stuT2, emptyRec, minAcc]
        all_goals norm_num)
      (by
        simp [comparisons, exOracle, init_session_cache, get_or_extract_embedding,
          alookup, ainsert, cosDist1, stuT1, stuT2, emptyRec, minAcc,
          RECOGNITION_THRESHOLD]
        all_goals norm_num)⟩

/-! ## Claim C8 -/

/-- Condition under which the roster loop skips a member at state `st`:
it has no truthy image (missing or empty), or its resolution raises, or
resolution yields no embedding.  By construction of
`get_or_extract_embedding`, a resolution that yields no embedding leaves
the state unchanged, which the last disjunct records. -/
def member_skipped (extractOracle : String → Except Unit (Option Emb))
    (session_id : String) (st : FaceRecognizerState) (student : Student) :
    Prop :=
  student.image = none ∨ student.image = some ("") ∨
  (∃ img, student.image = some img ∧
    (get_or_extract_embedding extractOracle st student.id img session_id =
        .error () ∨
     get_or_extract_embedding extractOracle st student.id img session_id =
        .ok (none, st, true)))

theorem recognize_loop_skip (dist : Emb → Emb → ℚ)
    (extractOracle : String → Except Unit (Option Emb)) (session_id : String)
    (up : Emb) (student : Student) (rest : List Student)
    (acc : Option String × Option String × ℚ) (st : FaceRecognizerState)
    (h : member_skipped extractOracle session_id st student) :
    recognize_loop dist extractOracle session_id up (student :: rest) acc st =
      recognize_loop dist extractOracle session_id up rest acc st := by
  rcases h with h | h | ⟨img, himg, h⟩
  · simp only [recognize_loop, h]
  · simp [recognize_loop, h]
  · by_cases hemp : img = ""
    · simp only [recognize_loop, himg, if_pos hemp]
    · rcases h with h | h <;> simp only [recognize_loop, himg, if_neg hemp, h]

theorem compState_skip (extractOracle : String → Except Unit (Option Emb))
    (session_id : String) (student : Student) (rest : List Student)
    (st : FaceRecognizerState)
    (h : member_skipped extractOracle session_id st student) :
    compState extractOracle session_id (student :: rest) st =
      compState extractOracle session_id rest st := by
  rcases h with h | h | ⟨img, himg, h⟩
  · simp only [compState, h]
  · simp [compState, h]
  · by_cases hemp : img = ""
    · simp only [compState, himg, if_pos hemp]
    · rcases h with h | h <;> simp only [compState, himg, if_neg hemp, h]

theorem comparisons_skip (dist : Emb → Emb → ℚ)
    (extractOracle : String → Except Unit (Option Emb)) (session_id : String)
    (up : Emb) (student : Student) (rest : List Student)
    (st : FaceRecognizerState)
    (h : member_skipped extractOracle session_id st student) :
    comparisons dist extractOracle session_id up (student :: rest) st =
      comparisons dist extractOracle session_id up rest st := by
  rcases h with h | h | ⟨img, himg, h⟩
  · simp only [comparisons, h]
  · simp [comparisons, h]
  · by_cases hemp : img = ""
    · simp only [comparisons, himg, if_pos hemp]
    · rcases h with h | h <;> simp only [comparisons, himg, if_neg hemp, h]

theorem compState_append (extractOracle : String → Except Unit (Option Emb))
    (session_id : String) (pre post : List Student)
    (st : FaceRecognizerState) :
    compState extractOracle session_id (pre ++ post) st =
      compState extractOracle session_id post
        (compState extractOracle session_id pre st) := by
  induction pre generalizing st with
  | nil => rfl
  | cons student rest ih =>
      rcases himg : student.image with _ | img
      · simp only [List.cons_append, compState, himg]
        exact ih st
      · by_cases hemp : img = ""
        · simp only [List.cons_append, compState, himg, if_pos hemp]
          exact ih st
        · rcases hgoe : get_or_extract_embedding extractOracle st student.id img
            session_id with u | ⟨eo, st', b⟩
          · simp only [List.cons_append, compState, himg, if_neg hemp, hgoe]
            exact ih st
          · simp only [List.cons_append, compState, himg, if_neg hemp, hgoe]
            exact ih st'

theorem comparisons_append (dist : Emb → Emb → ℚ)
    (extractOracle : String → Except Unit (Option Emb)) (session_id : String)
    (up : Emb) (pre post : List Student) (st : FaceRecognizerState) :
    comparisons dist extractOracle session_id up (pre ++ post) st =
      comparisons dist extractOracle session_id up pre st ++
        comparisons dist extractOracle session_id up post
          (compState extractOracle session_id pre st) := by
  induction pre generalizing st with
  | nil => rfl
  | cons student rest ih =>
      rcases himg : student.image with _ | img
      · simp only [List.cons_append, comparisons, compState, himg]
        exact ih st
      · by_cases hemp : img = ""
        · simp only [List.cons_append, comparisons, compState, himg, if_pos hemp]
          exact ih st
        · rcases hgoe : get_or_extract_embedding extractOracle st student.id img
            session_id with u | ⟨eo, st', b⟩
          · simp only [List.cons_append, comparisons, compState, himg,
              if_neg hemp, hgoe]
            exact ih st
          · rcases eo with _ | e
            · simp only [List.cons_append, comparisons, compState, himg,
                if_neg hemp, hgoe]
              exact ih st'
            · simp only [List.cons_append, comparisons, compState, himg,
                if_neg hemp, hgoe, List.append_eq]
              rw [ih st']

/-- C8.  A roster member without a truthy image, or whose vector
resolution raises or fails, is skipped: the whole match over the roster
with that member inserted anywhere equals the match over the roster
without it, both in the returned result and in the comparisons actually
performed, so the result is computed over the successfully resolved
members only and no per-member failure aborts the match. -/
theorem recognize_skips_failed_member (dist : Emb → Emb → ℚ)
    (extractOracle : String → Except Unit (Option Emb)) (threshold : ℚ)
    (st : FaceRecognizerState) (probe : String) (pre post : List Student)
    (student : Student) (session_id : String) (up : Emb)
    (hup : extractOracle probe = .ok (some up))
    (hskip : member_skipped extractOracle session_id
      (compState extractOracle session_id pre (init_session_cache st session_id))
      student) :
    recognize_face_from_students dist extractOracle threshold st probe
        (pre ++ student :: post) session_id =
      recognize_face_from_students dist extractOracle threshold st probe
        (pre ++ post) session_id ∧
    comparisons dist extractOracle session_id up (pre ++ student :: post)
        (init_session_cache st session_id) =
      comparisons dist extractOracle session_id up (pre ++ post)
        (init_session_cache st session_id) := by
  have hcmp : comparisons dist extractOracle session_id up (pre ++ student :: post)
      (init_session_cache st session_id) =
      comparisons dist extractOracle session_id up (pre ++ post)
        (init_session_cache st session_id) := by
    rw [comparisons_append, comparisons_append,
      comparisons_skip dist extractOracle session_id up student post _ hskip]
  have hst : compState extractOracle session_id (pre ++ student :: post)
      (init_session_cache st session_id) =
      compState extractOracle session_id (pre ++ post)
        (init_session_cache st session_id) := by
    rw [compState_append, compState_append,
      compState_skip extractOracle session_id student post _ hskip]
  refine ⟨?_, hcmp⟩
  simp only [recognize_face_from_students, hup]
  rw [recognize_loop_eq, recognize_loop_eq, hcmp, hst]

/-- C8 (witness): a member whose image raises on decode, inserted between
the two tied members, changes nothing. -/
theorem recognize_skips_failed_member_witness :
    exOracle ("probeImg") = .ok (some [1]) ∧
    member_skipped exOracle ("sess")
      (compState exOracle ("sess") [stuT1]
        (init_session_cache emptyRec ("sess")))
      ⟨some ("X"), some ("Xakep"), some ("imgBad")⟩ ∧
    recognize_face_from_students cosDist1 exOracle RECOGNITION_THRESHOLD
        emptyRec ("probeImg")
        [stuT1, ⟨some ("X"), some ("Xakep"), some ("imgBad")⟩, stuT2]
        ("sess") =
      recognize_face_from_students cosDist1 exOracle RECOGNITION_THRESHOLD
        emptyRec ("probeImg") [stuT1, stuT2] ("sess") := by
  have hskip : member_skipped exOracle ("sess")
      (compState exOracle ("sess") [stuT1]
        (init_session_cache emptyRec ("sess")))
      ⟨some ("X"), some ("Xakep"), some ("imgBad")⟩ := by
    refine Or.inr (Or.inr ⟨"imgBad", rfl, Or.inl ?_⟩)
    simp [compState, init_session_cache, get_or_extract_embedding, exOracle,
      alookup, ainsert, stuT1, emptyRec]
  exact ⟨rfl, hskip,
    (recognize_skips_failed_member cosDist1 exOracle RECOGNITION_THRESHOLD
      emptyRec ("probeImg") [stuT1] [stuT2]
      ⟨some ("X"), some ("Xakep"), some ("imgBad")⟩ ("sess") [1] rfl hskip).1⟩

/-! ## Claim C10 -/

/-- C10.  When a face is detected in the probe, the returned confidence
is nonnegative, and at most 1 whenever every compared distance is
nonnegative (as cosine distance is); a returned identity always belongs
to a compared member at distance strictly below 1; and if every compared
distance exceeds 1 the result is exactly the no-match triple with
confidence 0 — candidates beyond distance 1 can neither be selected nor
influence the reported confidence, because the running minimum starts
at 1.0. -/
theorem recognize_confidence_bounds (dist : Emb → Emb → ℚ)
    (extractOracle : String → Except Unit (Option Emb)) (threshold : ℚ)
    (st : FaceRecognizerState) (probe : String) (students : List Student)
    (session_id : String) (up : Emb)
    (hup : extractOracle probe = .ok (some up)) :
    ∀ r st₂, recognize_face_from_students dist extractOracle threshold st
        probe students session_id = .ok (r, st₂) →
      0 ≤ r.confidence ∧
      ((∀ e ∈ comparisons dist extractOracle session_id up students
          (init_session_cache st session_id), 0 ≤ e.2.2) →
        r.confidence ≤ 1) ∧
      (∀ x, r.student_id = some x →
        ∃ e ∈ comparisons dist extractOracle session_id up students
            (init_session_cache st session_id),
          e.1 = some x ∧ e.2.2 < 1) ∧
      ((∀ e ∈ comparisons dist extractOracle session_id up students
          (init_session_cache st session_id), 1 < e.2.2) →
        r = ⟨none, none, 0⟩) := by
  intro r st₂ h
  simp only [recognize_face_from_students, hup] at h
  rw [recognize_loop_eq] at h
  set cs := comparisons dist extractOracle session_id up students
    (init_session_cache st session_id) with hcs
  have hminle : minAcc cs 1 ≤ 1 := minAcc_le cs 1
  by_cases hm : minAcc cs 1 ≤ threshold
  · rw [if_pos (by rw [bestFold_min]; exact hm)] at h
    rw [Except.ok.injEq, Prod.mk.injEq] at h
    obtain ⟨hr, hst⟩ := h
    subst hr
    by_cases hlt : minAcc cs 1 < 1
    · obtain ⟨e, hfind, hbf, hde⟩ := bestFold_find cs none none 1 hlt
      refine ⟨?_, ?_, ?_, ?_⟩
      · simp only [hbf]
        rw [hde]
        linarith
      · intro hpos
        have h0 : (0 : ℚ) ≤ minAcc cs 1 :=
          (le_minAcc_iff cs 1 0).mpr ⟨by norm_num, hpos⟩
        simp only [hbf]
        rw [hde]
        linarith
      · intro x hx
        simp only [hbf] at hx
        exact ⟨e, List.mem_of_find?_eq_some hfind, hx, by rw [hde]; exact hlt⟩
      · intro hgt
        exact absurd ((le_minAcc_iff cs 1 1).mpr
          ⟨le_refl 1, fun q hq => le_of_lt (hgt q hq)⟩) (not_le.mpr hlt)
    · have heq : minAcc cs 1 = 1 := le_antisymm hminle (le_of_not_lt hlt)
      have hstay : bestFold cs (none, none, 1) = (none, none, 1) :=
        bestFold_stay cs none none 1
          (((le_minAcc_iff cs 1 1).mp (le_of_eq heq.symm)).2)
      refine ⟨?_, ?_, ?_, ?_⟩
      · simp only [hstay]
        norm_num
      · intro hpos
        simp only [hstay]
        norm_num
      · intro x hx
        simp only [hstay] at hx
        exact absurd hx (by simp)
      · intro hgt
        simp only [hstay]
        norm_num
  · rw [if_neg (by rw [bestFold_min]; exact hm)] at h
    rw [Except.ok.injEq, Prod.mk.injEq] at h
    obtain ⟨hr, hst⟩ := h
    subst hr
    refine ⟨?_, ?_, ?_, ?_⟩
    · simp only [bestFold_min]
      linarith
    · intro hpos
      have h0 : (0 : ℚ) ≤ minAcc cs 1 :=
        (le_minAcc_iff cs 1 0).mpr ⟨by norm_num, hpos⟩
      simp only [bestFold_min]
      linarith
    · intro x hx
      exact absurd hx (by simp)
    · intro hgt
      have heq : minAcc cs 1 = 1 :=
        le_antisymm hminle
          ((le_minAcc_iff cs 1 1).mpr ⟨le_refl 1, fun q hq => le_of_lt (hgt q hq)⟩)
      simp only [bestFold_min, heq]
      norm_num

/-- C10 (witness): the single member at distance 2 yields the no-match
result with confidence 0, which indeed lies in the unit interval. -/
theorem recognize_confidence_bounds_witness :
    exOracle ("probeImg") = .ok (some [1]) ∧
    recognize_face_from_students cosDist1 exOracle RECOGNITION_THRESHOLD
        emptyRec ("probeImg") [stuA] ("sess") =
      .ok (⟨none, none, 0⟩,
        ⟨[], [("sess", [(some ("A"), [-1])])], []⟩) ∧
    (0 : ℚ) ≤ (0 : ℚ) ∧ (0 : ℚ) ≤ 1 := by
  have hrun : recognize_face_from_students cosDist1 exOracle
      RECOGNITION_THRESHOLD emptyRec ("probeImg") [stuA] ("sess") =
      .ok (⟨none, none, 0⟩,
        ⟨[], [("sess", [(some ("A"), [-1])])], []⟩) := by
    simp [recognize_face_from_students, exOracle, init_session_cache,
      recognize_loop, get_or_extract_embedding, alookup, ainsert, cosDist1,
      stuA, emptyRec, RECOGNITION_THRESHOLD]
    all_goals norm_num
  have hb := recognize_confidence_bounds cosDist1 exOracle
    RECOGNITION_THRESHOLD emptyRec ("probeImg") [stuA] ("sess") [1] rfl
    ⟨none, none, 0⟩ ⟨[], [("sess", [(some ("A"), [-1])])], []⟩ hrun
  exact ⟨rfl, hrun, hb.1, by norm_num⟩

/-! ## Claim C6 -/

/-- C6.  For an identity that has both an enrolled (pre-computed) vector
and a session-cached vector, vector resolution returns the enrolled
vector, leaves the state untouched and does not run the extraction
pipeline. -/
theorem resolve_prefers_enrolled
    (extractOracle : String → Except Unit (Option Emb))
    (st : FaceRecognizerState) (student_id : String)
    (student_image session_id : String) (ve vc : Emb)
    (he : alookup st.embeddings student_id = some ve)
    (hc : (alookup st.session_cache session_id).bind
      (fun c => alookup c (some student_id)) = some vc) :
    get_or_extract_embedding extractOracle st (some student_id)
        student_image session_id = .ok (some ve, st, false) := by
  simp only [get_or_extract_embedding, Option.bind, he]

/-- C6 (witness): identity E is both enrolled (vector `[5]`) and
session-cached (vector `[7]`); resolution returns the enrolled `[5]`. -/
theorem resolve_prefers_enrolled_witness :
    alookup (FaceRecognizerState.mk [("E", [5])]
        [("sess", [(some ("E"), [7])])] []).embeddings ("E") = some [5] ∧
    (alookup (FaceRecognizerState.mk [("E", [5])]
        [("sess", [(some ("E"), [7])])] []).session_cache ("sess")).bind
      (fun c => alookup c (some ("E"))) = some [7] ∧
    get_or_extract_embedding exOracle
        (FaceRecognizerState.mk [("E", [5])] [("sess", [(some ("E"), [7])])] [])
        (some ("E")) ("anyImage") ("sess") =
      .ok (some [5],
        FaceRecognizerState.mk [("E", [5])] [("sess", [(some ("E"), [7])])] [],
        false) :=
  ⟨by simp [alookup], by simp [alookup],
    resolve_prefers_enrolled exOracle
      (FaceRecognizerState.mk [("E", [5])] [("sess", [(some ("E"), [7])])] [])
      ("E") ("anyImage") ("sess") [5] [7]
      (by simp [alookup]) (by simp [alookup])⟩

/-! ## Claim C7 -/

/-- C7.  When resolution for a pair (session, identity) with no enrolled
vector and no cached vector falls through to extraction and the
extraction yields an embedding (nonempty, as the fixed-dimensional
extraction model guarantees — the source caches only truthy values),
the embedding is written through to the session cache, enrolled vectors
are untouched, and every subsequent resolution for the same pair on the
resulting state (given still no enrolled vector) returns the cached
embedding with no further extraction, for any image argument. -/
theorem resolve_write_through
    (extractOracle : String → Except Unit (Option Emb))
    (st : FaceRecognizerState) (session_id : String)
    (student_id : Option String) (img : String) (e : Emb)
    (hne : student_id.bind (alookup st.embeddings) = none)
    (hnc : (alookup st.session_cache session_id).bind
      (fun c => alookup c student_id) = none)
    (hex : extractOracle img = .ok (some e)) (hemb : e ≠ []) :
    ∃ st₁, get_or_extract_embedding extractOracle st student_id img
        session_id = .ok (some e, st₁, true) ∧
      st₁.embeddings = st.embeddings ∧
      ∀ img₂, get_or_extract_embedding extractOracle st₁ student_id img₂
          session_id = .ok (some e, st₁, false) := by
  have hempty : e.isEmpty = false := by
    cases e with
    | nil => exact absurd rfl hemb
    | cons a t => rfl
  refine ⟨{ st with session_cache :=
      (ainsert st.session_cache session_id
        (ainsert ((alookup st.session_cache session_id).getD [])
          student_id e)) }, ?_, rfl, ?_⟩
  · simp only [get_or_extract_embedding, hne, hnc, hex, hempty,
      Bool.false_eq_true, if_false]
  · intro img₂
    have hcache : (alookup (ainsert st.session_cache session_id
        (ainsert ((alookup st.session_cache session_id).getD [])
          student_id e)) session_id).bind (fun c => alookup c student_id) =
        some e := by
      rw [alookup_ainsert_self]
      simp [alookup_ainsert_self]
    simp only [get_or_extract_embedding, hne, hcache]

/-- C7 (witness): for the uncached, unenrolled identity T1, the first
resolution extracts and caches `[1]`, and the subsequent resolution
returns it without extracting. -/
theorem resolve_write_through_witness :
    ((some ("T1") : Option String).bind (alookup emptyRec.embeddings) = none) ∧
    exOracle ("imgT1") = .ok (some [1]) ∧ ([1] : Emb) ≠ [] ∧
    ∃ st₁, get_or_extract_embedding exOracle emptyRec (some ("T1"))
        ("imgT1") ("sess") = .ok (some [1], st₁, true) ∧
      st₁.embeddings = emptyRec.embeddings ∧
      ∀ img₂, get_or_extract_embedding exOracle st₁ (some ("T1")) img₂
          ("sess") = .ok (some [1], st₁, false) :=
  ⟨rfl, rfl, by simp,
    resolve_write_through exOracle emptyRec ("sess") (some ("T1")) ("imgT1")
      [1] rfl rfl rfl (by simp)⟩

/-! ## Claim C2 -/

/-- C2.  For a stored session record, the lookup returns NotFound iff the
age at the access strictly exceeds the TTL — so a session at age exactly
the TTL is still live — independently of any earlier lookups (the
statement quantifies over an arbitrary well-formed store holding the
record, and a live lookup leaves the record in place unchanged); and an
expired lookup also evicts the entry from the resulting store. -/
theorem get_session_ttl (now₁ now₂ : ℚ)
    (sessions : List (String × CaptureData)) (token : String)
    (d : CaptureData) (hnd : (sessions.map Prod.fst).Nodup)
    (hmono : now₁ ≤ now₂) (hs : alookup sessions token = some d) :
    ((get_capture_session now₁ now₂ sessions token).1 =
      (if now₂ - d.created_at > SESSION_TTL then none else some d)) ∧
    (now₂ - d.created_at > SESSION_TTL →
      alookup (get_capture_session now₁ now₂ sessions token).2 token = none) ∧
    (¬ now₂ - d.created_at > SESSION_TTL →
      alookup (get_capture_session now₁ now₂ sessions token).2 token = some d) := by
  have hnd₁ : ((cleanup_sessions now₁ sessions).map Prod.fst).Nodup := by
    unfold cleanup_sessions
    exact List.Nodup.sublist (List.Sublist.map Prod.fst (List.filter_sublist _)) hnd
  have hflt : alookup (cleanup_sessions now₁ sessions) token =
      if decide (¬ (now₁ - d.created_at > SESSION_TTL)) then some d
      else none := by
    unfold cleanup_sessions
    exact alookup_filter sessions _ token d hnd hs
  by_cases hp : now₁ - d.created_at > SESSION_TTL
  · have halk : alookup (cleanup_sessions now₁ sessions) token = none := by
      rw [hflt]
      simp [hp]
    have hp₂ : now₂ - d.created_at > SESSION_TTL :=
      lt_of_lt_of_le hp (by linarith)
    refine ⟨?_, fun _ => ?_, fun hc => absurd hp₂ hc⟩
    · simp only [get_capture_session, halk, if_pos hp₂]
    · simp only [get_capture_session, halk]
  · have halk : alookup (cleanup_sessions now₁ sessions) token = some d := by
      rw [hflt]
      simp [hp]
    by_cases hp₂ : now₂ - d.created_at > SESSION_TTL
    · refine ⟨?_, fun _ => ?_, fun hc => absurd hp₂ hc⟩
      · simp only [get_capture_session, halk, if_pos hp₂]
      · simp only [get_capture_session, halk, if_pos hp₂]
        exact alookup_aremove_self _ token hnd₁
    · refine ⟨?_, fun hc => absurd hc hp₂, fun _ => ?_⟩
      · simp only [get_capture_session, halk, if_neg hp₂]
      · simp only [get_capture_session, halk, if_neg hp₂]

/-- C2 (witness): a session created at time 0 and looked up at time 4000
(age 4000, TTL 3600) answers NotFound and is evicted. -/
theorem get_session_ttl_witness :
    (([(("t" : String), CaptureData.mk ("info") 0)].map Prod.fst).Nodup) ∧
    alookup [(("t" : String), CaptureData.mk ("info") 0)] ("t") =
      some (CaptureData.mk ("info") 0) ∧
    ((get_capture_session 4000 4000 [(("t" : String), CaptureData.mk ("info") 0)]
        ("t")).1 =
      (if (4000 : ℚ) - (CaptureData.mk ("info") 0).created_at > SESSION_TTL
        then none else some (CaptureData.mk ("info") 0))) ∧
    ((4000 : ℚ) - (CaptureData.mk ("info") 0).created_at > SESSION_TTL →
      alookup (get_capture_session 4000 4000
        [(("t" : String), CaptureData.mk ("info") 0)] ("t")).2 ("t") = none) := by
  have h := get_session_ttl 4000 4000 [(("t" : String), CaptureData.mk ("info") 0)]
    ("t") (CaptureData.mk ("info") 0) (by simp) (le_refl 4000) (by simp [alookup])
  exact ⟨by simp, by simp [alookup], h.1, h.2.1⟩

/-! ## Claim C3 -/

/-- Reachable system state: a capture session for token t started at
time 0 with a listener (handle 7) attached at time 1. -/
def exSysState : SysState :=
  (websocket_endpoint_attach 1 1
    (start_capture_session 0 ("t") ("cls") ⟨[], ⟨[], []⟩⟩) 7 ("t")).1

/-- C3 (counterexample).  The claim asserts that whenever the token store
destroys a session — including by expiry eviction on an access — the
channel entry for that token is torn down.  In the reachable state with
a session for t and an attached listener, an access at time 4000 (past
the 3600s TTL) evicts the session, yet the connection entry survives: a
token maps to an active connection with no live session. -/
theorem channel_outlives_session_cex :
    alookup exSysState.capture_sessions ("t") = some (CaptureData.mk ("cls") 0) ∧
    alookup exSysState.manager.active_connections ("t") = some 7 ∧
    (sys_get_capture_session 4000 4000 exSysState ("t")).1 = none ∧
    alookup (sys_get_capture_session 4000 4000 exSysState ("t")).2.capture_sessions
      ("t") = none ∧
    alookup (sys_get_capture_session 4000 4000 exSysState ("t")).2.manager.active_connections
      ("t") = some 7 := by
  refine ⟨?_, ?_, ?_, ?_, ?_⟩ <;>
    simp [exSysState, websocket_endpoint_attach, start_capture_session,
      sys_get_capture_session, get_capture_session, cleanup_sessions,
      ConnectionManager.connect, SESSION_TTL, alookup, ainsert, aremove] <;>
    norm_num

/-- C3 (amended).  Explicit termination does tear the channel down: when
the token is stored, ending the session removes both the session entry
and the connection entry (for well-formed stores).  Destruction by
expiry eviction, however, never touches the connection registry — the
store lookup leaves the manager component of the state unchanged — so
the claimed invariant holds only for the explicit-termination path. -/
theorem session_teardown_amended (st : SysState) (token : String)
    (d : CaptureData) (hndS : (st.capture_sessions.map Prod.fst).Nodup)
    (hndC : (st.manager.active_connections.map Prod.fst).Nodup)
    (hs : alookup st.capture_sessions token = some d) :
    (end_capture_session st token).2 = true ∧
    alookup (end_capture_session st token).1.capture_sessions token = none ∧
    alookup (end_capture_session st token).1.manager.active_connections token
      = none ∧
    ∀ now₁ now₂ t, (sys_get_capture_session now₁ now₂ st t).2.manager =
      st.manager := by
  refine ⟨?_, ?_, ?_, fun now₁ now₂ t => rfl⟩
  · simp only [end_capture_session, hs]
  · simp only [end_capture_session, hs]
    exact alookup_aremove_self _ token hndS
  · simp only [end_capture_session, hs, ConnectionManager.disconnect]
    exact alookup_aremove_self _ token hndC

/-- C3 (witness for the amended theorem): ending the session for t in the
reachable example state removes both the session and the connection. -/
theorem session_teardown_amended_witness :
    alookup exSysState.capture_sessions ("t") = some (CaptureData.mk ("cls") 0) ∧
    (end_capture_session exSysState ("t")).2 = true ∧
    alookup (end_capture_session exSysState ("t")).1.capture_sessions ("t")
      = none ∧
    alookup (end_capture_session exSysState ("t")).1.manager.active_connections
      ("t") = none := by
  have hs : alookup exSysState.capture_sessions ("t") =
      some (CaptureData.mk ("cls") 0) := by
    simp [exSysState, websocket_endpoint_attach, start_capture_session,
      sys_get_capture_session, get_capture_session, cleanup_sessions,
      ConnectionManager.connect, SESSION_TTL, alookup, ainsert]
    all_goals norm_num
  have h := session_teardown_amended exSysState ("t") (CaptureData.mk ("cls") 0)
    (by
      simp [exSysState, websocket_endpoint_attach, start_capture_session,
        sys_get_capture_session, get_capture_session, cleanup_sessions,
        ConnectionManager.connect, SESSION_TTL, alookup, ainsert]
      all_goals norm_num)
    (by
      simp [exSysState, websocket_endpoint_attach, start_capture_session,
        sys_get_capture_session, get_capture_session, cleanup_sessions,
        ConnectionManager.connect, SESSION_TTL, alookup, ainsert]
      all_goals norm_num)
    hs
  exact ⟨hs, h.1, h.2.1, h.2.2.1⟩

/-! ## Claim C4 -/

/-- C4 (counterexample).  The claim asserts the first handle is closed at
the moment it is replaced; the manager merely overwrites the registry
entry and never closes anything, so after the two attaches handle 1 is
not closed. -/
theorem replaced_handle_not_closed_cex :
    ((ConnectionManager.mk [] []).connect 1 ("t")).connect 2 ("t") =
      ConnectionManager.mk [("t", 2)] [] ∧
    (((ConnectionManager.mk [] []).connect 1 ("t")).connect 2 ("t")).send_message
      ("t") = some 2 ∧
    1 ∉ ((((ConnectionManager.mk [] []).connect 1 ("t")).connect 2 ("t")).closed) := by
  refine ⟨?_, ?_, ?_⟩ <;>
    simp [ConnectionManager.connect, ConnectionManager.send_message, ainsert,
      alookup]

/-- C4 (amended).  After two sequential attaches for the same token, the
registry holds exactly one connection for that token — the second handle
— and a push for that token is delivered exactly to it; the first handle
is however not closed: the manager closes nothing, its closed set is
unchanged (the first handle is merely dropped from the registry). -/
theorem attach_last_writer_wins (m : ConnectionManager) (h₁ h₂ : ℕ)
    (t : String) (hnd : (m.active_connections.map Prod.fst).Nodup) :
    alookup ((m.connect h₁ t).connect h₂ t).active_connections t = some h₂ ∧
    countKey ((m.connect h₁ t).connect h₂ t).active_connections t = 1 ∧
    ((m.connect h₁ t).connect h₂ t).send_message t = some h₂ ∧
    ((m.connect h₁ t).connect h₂ t).closed = m.closed := by
  refine ⟨alookup_ainsert_self _ t h₂, ?_,
    alookup_ainsert_self _ t h₂, rfl⟩
  exact countKey_ainsert_self _ t h₂ (nodup_keys_ainsert _ t h₁ hnd)

/-- C4 (witness): from the empty manager, attaching handles 1 then 2 for
token t leaves exactly handle 2 registered and delivered to. -/
theorem attach_last_writer_wins_witness :
    ((([] : List (String × ℕ)).map Prod.fst).Nodup) ∧
    alookup (((ConnectionManager.mk [] []).connect 1 ("t")).connect 2
      ("t")).active_connections ("t") = some 2 ∧
    countKey (((ConnectionManager.mk [] []).connect 1 ("t")).connect 2
      ("t")).active_connections ("t") = 1 ∧
    (((ConnectionManager.mk [] []).connect 1 ("t")).connect 2 ("t")).closed =
      (ConnectionManager.mk [] []).closed := by
  have h := attach_last_writer_wins (ConnectionManager.mk [] []) 1 2 ("t")
    (by simp)
  exact ⟨by simp, h.1, h.2.1, h.2.2.2⟩

/-! ## Claim C9 -/

/-- C9.  A failed durable write returns failure and leaves the whole
state — in particular the in-memory embeddings map — unchanged (the map
entry is only installed after the write succeeds); a successful write
returns success and installs the new vector both in the durable record
and in the in-memory map. -/
theorem save_embedding_atomic (st : FaceRecognizerState)
    (student_id : String) (embedding : Emb) :
    save_embedding st student_id embedding false = (st, false) ∧
    (save_embedding st student_id embedding true).2 = true ∧
    alookup (save_embedding st student_id embedding true).1.embeddings
      student_id = some embedding ∧
    alookup (save_embedding st student_id embedding true).1.embeddings_dir
      student_id = some embedding := by
  refine ⟨rfl, rfl, ?_, ?_⟩ <;>
    simp [save_embedding, alookup_ainsert_self]

end AttendanceApp
